import Mathlib

/-
  Verification development for the medical-bill translation pipeline
  (scripts/translate_bill.py).

  The Python source is shallowly embedded as executable Lean definitions:
  - Python str values are Lean String / List Char; str.strip, str.split,
    str.lower, str.replace are re-implemented over List Char.
  - Python float is modelled as exact Rat over the decimal-literal grammar
    (sign, digits, optional fraction, optional exponent).  The special
    float spellings "inf" / "nan" and PEP-515 digit underscores are out of
    scope, as are binary rounding effects: no claim in scope compares
    amounts that differ only by rounding.
  - csv.DictReader is modelled as line/field splitting on the detected
    delimiter.  CSV quoting and carriage returns are not modelled; inputs
    in scope use plain delimited fields.  Missing cells become none
    (DictReader restval), extra cells are ignored (restkey), duplicate
    header names resolve to the last occurrence (dict(zip(...))).
  - datetime.strptime("%Y-%m-%d") + .date() is modelled by parseDate:
    exactly four year digits, one or two month/day digits, calendar
    validity with Gregorian leap years.
  - Uncaught Python exceptions are modelled with Except String: an
    exception raised mid-way aborts the whole computation.
-/

namespace Bill

abbrev Chars := List Char

/-- Python str whitespace (ASCII fragment), as stripped by str.strip(). -/
def pySpace (c : Char) : Bool :=
  c = ' ' || c = '\t' || c = '\n' || c = '\r' || c = '\x0b' || c = '\x0c'

def trimChars (l : Chars) : Chars :=
  ((l.dropWhile pySpace).reverse.dropWhile pySpace).reverse

def ofChars (l : Chars) : String :=
  String.mk l

/-- Python str.strip(). -/
def strip (s : String) : String :=
  ofChars (trimChars s.data)

/-- Python str.split(d) for a one-character separator d. -/
def splitOnCharAux (d : Char) : Chars → Chars → List Chars
  | [], acc => [acc.reverse]
  | c :: rest, acc =>
      if c = d then acc.reverse :: splitOnCharAux d rest []
      else splitOnCharAux d rest (c :: acc)

def splitOnChar (d : Char) (l : Chars) : List Chars :=
  splitOnCharAux d l []

def toLowerChars (l : Chars) : Chars :=
  l.map Char.toLower

/-- Python ''.join with a separator (str.join). -/
def joinSep (sep : String) : List String → String
  | [] => ""
  | [x] => x
  | x :: y :: rest => x ++ sep ++ joinSep sep (y :: rest)

def NO_RESPONSE : String := "_No response_"

/-- blank(val): True if val is empty/whitespace or the GitHub sentinel. -/
def blank (s : String) : Bool :=
  strip s = "" || strip s = NO_RESPONSE

/-- Value of a digit list read in base 10. -/
def natOfDigits (l : Chars) : Nat :=
  l.foldl (fun n c => 10 * n + (c.toNat - 48)) 0

/-- Python int(s): optional sign, then decimal digits (underscores and
non-ASCII digits out of scope). -/
def parseIntChars (l : Chars) : Option Int :=
  match trimChars l with
  | '+' :: r => if r ≠ [] ∧ r.all Char.isDigit then some ((natOfDigits r : Int)) else none
  | '-' :: r => if r ≠ [] ∧ r.all Char.isDigit then some (-(natOfDigits r : Int)) else none
  | r => if r ≠ [] ∧ r.all Char.isDigit then some ((natOfDigits r : Int)) else none

structure Date where
  year : Nat
  month : Nat
  day : Nat
deriving DecidableEq

def isLeapYear (y : Nat) : Bool :=
  y % 4 = 0 && (y % 100 ≠ 0 || y % 400 = 0)

def daysInMonth (y m : Nat) : Nat :=
  if m = 2 then (if isLeapYear y then 29 else 28)
  else if m = 4 ∨ m = 6 ∨ m = 9 ∨ m = 11 then 30
  else 31

/-- datetime.strptime(s, "%Y-%m-%d").date(): four year digits, one or two
month and day digits, whole-string match, calendar-valid values. -/
def parseDate (l : Chars) : Option Date :=
  match splitOnChar '-' l with
  | [y, m, d] =>
      if y.length = 4 ∧ y.all Char.isDigit ∧
         1 ≤ m.length ∧ m.length ≤ 2 ∧ m.all Char.isDigit ∧
         1 ≤ d.length ∧ d.length ≤ 2 ∧ d.all Char.isDigit then
        let yn := natOfDigits y
        let mn := natOfDigits m
        let dn := natOfDigits d
        if 1 ≤ yn ∧ 1 ≤ mn ∧ mn ≤ 12 ∧ 1 ≤ dn ∧ dn ≤ daysInMonth yn mn then
          some ⟨yn, mn, dn⟩
        else none
      else none
  | _ => none

/-- Python date comparison (lexicographic on year, month, day). -/
def dateLt (a b : Date) : Bool :=
  decide (a.year < b.year ∨ (a.year = b.year ∧
    (a.month < b.month ∨ (a.month = b.month ∧ a.day < b.day))))

def padZeros (w : Nat) (n : Nat) : String :=
  let s := toString n
  if s.length < w then ofChars (List.replicate (w - s.length) '0') ++ s else s

/-- date.strftime("%Y-%m-%d"). -/
def dateToStr (d : Date) : String :=
  padZeros 4 d.year ++ "-" ++ padZeros 2 d.month ++ "-" ++ padZeros 2 d.day

/-- The exact rational mant · 10 ^ (e − fracLen), written with mkRat so
that it normalizes by construction. -/
def ratOfMantExp (mant : Int) (fracLen : Nat) (e : Int) : Rat :=
  let t : Int := e - (fracLen : Int)
  if 0 ≤ t then mkRat (mant * (10 : Int) ^ t.toNat) 1
  else mkRat mant ((10 : Nat) ^ (-t).toNat)

/-- Exponent/terminator part of the Python float literal grammar. -/
def parseExpDigits (mant : Int) (fracLen : Nat) (r : Chars) : Option Rat :=
  let p := match r with
    | '+' :: t => ((1 : Int), t)
    | '-' :: t => ((-1 : Int), t)
    | t => ((1 : Int), t)
  if p.2 ≠ [] ∧ p.2.all Char.isDigit then
    some (ratOfMantExp mant fracLen (p.1 * (natOfDigits p.2 : Int)))
  else none

def parseExpPart (mant : Int) (fracLen : Nat) : Chars → Option Rat
  | [] => some (ratOfMantExp mant fracLen 0)
  | 'e' :: r => parseExpDigits mant fracLen r
  | 'E' :: r => parseExpDigits mant fracLen r
  | _ => none

/-- Python float(s) on decimal literals, as an exact rational. -/
def parseFloatChars (s : Chars) : Option Rat :=
  let t := trimChars s
  let p := match t with
    | '+' :: r => ((1 : Int), r)
    | '-' :: r => ((-1 : Int), r)
    | r => ((1 : Int), r)
  let ip := p.2.takeWhile Char.isDigit
  let rest := p.2.drop ip.length
  match rest with
  | '.' :: r2 =>
      let fp := r2.takeWhile Char.isDigit
      let rest2 := r2.drop fp.length
      if ip = [] ∧ fp = [] then none
      else parseExpPart (p.1 * (natOfDigits (ip ++ fp) : Int)) fp.length rest2
  | _ =>
      if ip = [] then none
      else parseExpPart (p.1 * (natOfDigits ip : Int)) 0 rest

/-- parse_money(val): strip, drop every "$" and ",", then float(). -/
def parse_money (l : Chars) : Option Rat :=
  parseFloatChars ((trimChars l).filter (fun c => ¬(c = '$' ∨ c = ',')))

/-- re.sub(r"^```[^\n]*\n?", "", s) for an already stripped s. -/
def stripOpenFence (s : String) : String :=
  let l := s.data
  if l.take 3 = ['`', '`', '`'] then
    let rest := (l.drop 3).dropWhile (fun c => ¬ c = '\n')
    match rest with
    | '\n' :: t => ofChars t
    | t => ofChars t
  else s

/-- re.sub(r"\n?```\s*$", "", s) for an already stripped s. -/
def stripCloseFence (s : String) : String :=
  let r := s.data.reverse
  if r.take 3 = ['`', '`', '`'] then
    let r2 := r.drop 3
    match r2 with
    | '\n' :: t => ofChars t.reverse
    | t => ofChars t.reverse
  else s

/-- detect_delimiter(text): inspect the first non-blank line of the
stripped text; tab wins only when tab count ≥ comma count and > 0. -/
def detect_delimiter (s : String) : Char :=
  let lines := (splitOnChar '\n' (strip s).data).filter (fun l => trimChars l ≠ [])
  match lines with
  | [] => ','
  | header :: _ =>
      if header.count '\t' ≥ header.count ',' ∧ header.count '\t' > 0 then '\t' else ','

/-- The text after the two code-fence substitutions of parse_line_items. -/
def fenceStripped (text : String) : String :=
  stripCloseFence (strip (stripOpenFence (strip text)))

/-- The stripped table body handed to csv.DictReader. -/
def bodyOf (text : String) : String :=
  strip (fenceStripped text)

def delimOf (text : String) : Char :=
  detect_delimiter (fenceStripped text)

def linesOf (text : String) : List Chars :=
  splitOnChar '\n' (bodyOf text).data

def headerOf (text : String) : Chars :=
  (linesOf text).headD []

/-- DictReader fieldnames after the strip().lower() normalization. -/
def fieldnamesOf (text : String) : List Chars :=
  (splitOnChar (delimOf text) (headerOf text)).map (fun f => toLowerChars (trimChars f))

/-- The data rows the DictReader loop iterates: every line after the
header, with fully blank lines skipped by the csv reader. -/
def dataLinesOf (text : String) : List Chars :=
  (linesOf text).tail.filter (fun l => l ≠ [])

/-- The six required column names, alphabetically ordered as produced by
sorted(required_cols - set(fieldnames)). -/
def requiredColsSorted : List Chars :=
  [("charge").data, ("code").data, ("code_type").data, ("date_of_service").data,
   ("line_id").data, ("units").data]

def missingColsOf (text : String) : List Chars :=
  requiredColsSorted.filter (fun c => ¬ (fieldnamesOf text).contains c)

/-- dict(zip(fieldnames, row)) with DictReader restval=None padding:
fields beyond the row length map to none, extra row values are dropped. -/
def zipRestval : List Chars → List Chars → List (Chars × Option Chars)
  | [], _ => []
  | f :: fs, [] => (f, none) :: zipRestval fs []
  | f :: fs, v :: vs => (f, some v) :: zipRestval fs vs

/-- raw_row.get(name): dict semantics, the last duplicate key wins. -/
def rowGet (pairs : List (Chars × Option Chars)) (name : Chars) : Option Chars :=
  match (pairs.filter (fun p => decide (p.1 = name))).getLast? with
  | some p => p.2
  | none => none

/-- (raw_row.get(name) or "").strip() -/
def getStr (pairs : List (Chars × Option Chars)) (name : Chars) : Chars :=
  trimChars ((rowGet pairs name).getD [])

structure LineItem where
  line_id : Int
  date_of_service : Date
  code : String
  code_type : String
  units : Int
  charge : Rat
  bill_label : String
deriving DecidableEq

/-- Field validation for one data row.  On failure returns the ordered
error messages together with the raw line_id text used for display. -/
def rowCheck (fieldnames : List Chars) (delim : Char) (line : Chars) :
    Except (List String × Chars) LineItem :=
  let vals := splitOnChar delim line
  let pairs := zipRestval fieldnames vals
  let lidS := getStr pairs ("line_id").data
  let dosS := getStr pairs ("date_of_service").data
  let codeS := getStr pairs ("code").data
  let ctS := getStr pairs ("code_type").data
  let unitsS := getStr pairs ("units").data
  let chargeS := getStr pairs ("charge").data
  let billS := getStr pairs ("bill_label").data
  let sq : String := ofChars ['\'']
  let msgs : List String :=
    (if parseIntChars lidS = none then ["invalid line_id"] else []) ++
    (if parseDate dosS = none then
      ["invalid date_of_service " ++ sq ++ ofChars dosS ++ sq] else []) ++
    (if codeS = [] then ["missing code"] else []) ++
    (if ctS = [] then ["missing code_type"] else []) ++
    (if parseIntChars unitsS = none then
      ["invalid units " ++ sq ++ ofChars unitsS ++ sq] else []) ++
    (if parse_money chargeS = none then
      ["invalid charge " ++ sq ++ ofChars chargeS ++ sq] else [])
  if codeS ≠ [] ∧ ctS ≠ [] then
    match parseIntChars lidS, parseDate dosS, parseIntChars unitsS, parse_money chargeS with
    | some lid, some dos, some units, some charge =>
        .ok ⟨lid, dos, ofChars codeS, ofChars ctS, units, charge, ofChars billS⟩
    | _, _, _, _ => .error (msgs, lidS)
  else .error (msgs, lidS)

/-- f"Row {i}, line_id={lid_display}: {'; '.join(row_errors)}" -/
def rowErrMsg (i : Nat) (rawLid : Chars) (msgs : List String) : String :=
  "Row " ++ toString i ++ ", line_id=" ++
    (if rawLid = [] then "(row " ++ toString i ++ ")" else ofChars rawLid) ++
    ": " ++ joinSep ("; ") msgs

/-- The per-row loop: row numbering starts at 2 (header is row 1), a bad
row contributes one aggregated error and no item. -/
def processRows (fns : List Chars) (delim : Char) : Nat → List Chars → List LineItem × List String
  | _, [] => ([], [])
  | i, line :: rest =>
      let r := processRows fns delim (i + 1) rest
      match rowCheck fns delim line with
      | .ok item => (item :: r.1, r.2)
      | .error (msgs, rawLid) => (r.1, rowErrMsg i rawLid msgs :: r.2)

/-- parse_line_items(text) -> (rows, errors). -/
def parse_line_items (text : String) : List LineItem × List String :=
  if blank text then ([], ["No line-item data provided."])
  else if bodyOf text = "" then ([], [])
  else if missingColsOf text ≠ [] then
    ([], ["Missing required columns: " ++ joinSep (", ") ((missingColsOf text).map ofChars)])
  else processRows (fieldnamesOf text) (delimOf text) 2 (dataLinesOf text)

/-- One row of the code-definitions source; a none field models a column
absent from the csv (DictReader yields None, and row[...] raises). -/
structure RegRow where
  code : Option String
  code_type : Option String
  official_description : Option String
  plain_english : Option String
  status : Option String
  effective_date : Option String
deriving DecidableEq

/-- One loaded definition.  effective_date is kept as the raw stripped
string, exactly as load_code_definitions stores it. -/
structure CodeDef where
  code_type : String
  official_description : String
  plain_english : String
  status : String
  effective_date : String
deriving DecidableEq

abbrev Registry := List (String × CodeDef)

/-- Python dict insertion: a later row with the same code overwrites. -/
def dictInsert (k : String) (v : CodeDef) : Registry → Registry
  | [] => [(k, v)]
  | (k2, v2) :: rest =>
      if k2 = k then (k, v) :: rest else (k2, v2) :: dictInsert k v rest

/-- Python dict lookup (keys are unique after dictInsert). -/
def regFind (defs : Registry) (code : String) : Option CodeDef :=
  match defs.find? (fun p => decide (p.1 = code)) with
  | some p => some p.2
  | none => none

/-- row[...] on a DictReader row: raises (KeyError / None.strip) when the
column is missing. -/
def getCol (v : Option String) : Except String String :=
  match v with
  | some s => .ok (strip s)
  | none => .error "missing column in code definitions"

def loadDefsAux (acc : Registry) : List RegRow → Except String Registry
  | [] => .ok acc
  | r :: rest =>
      match getCol r.code, getCol r.code_type, getCol r.official_description,
            getCol r.plain_english, getCol r.status, getCol r.effective_date with
      | .ok c, .ok ct, .ok od, .ok pe, .ok st, .ok ed =>
          loadDefsAux (dictInsert c ⟨ct, od, pe, st, ed⟩ acc) rest
      | _, _, _, _, _, _ => .error "missing column in code definitions"

/-- load_code_definitions: builds the dict keyed by code.  Note that the
effective_date string is stored verbatim and never parsed here. -/
def load_code_definitions (rows : List RegRow) : Except String Registry :=
  loadDefsAux [] rows

def PLACEHOLDER : String := "Definition not provided in Code Pack."

def INACTIVE_NOTE : String := "Code is inactive or not effective for the date of service."

def DUP_NOTE : String :=
  "This appears duplicated under the project's duplicate rule. Please confirm with billing."

def unitsReason : String := "units = 0 AND charge > 0"

def modReason : String := "code_type is MOD with charge > 0"

def missingCodeReason : String := "Missing code definition"

def mismatchReason (billType packType : String) : String :=
  let sq : String := ofChars ['\'']
  "code_type mismatch: bill has " ++ sq ++ billType ++ sq ++ ", pack has " ++ sq ++ packType ++ sq

/-- The uncaught ValueError raised by strptime on a bad effective_date. -/
def strptimeError (raw : String) : String :=
  let sq : String := ofChars ['\'']
  "time data " ++ sq ++ raw ++ sq ++ " does not match format " ++ sq ++ "%Y-%m-%d" ++ sq

structure Entry where
  line_id : Int
  dos : String
  code : String
  code_type : String
  official_desc : String
  plain_eng : String
  units : Int
  charge : Rat
  notes : String
deriving DecidableEq

structure Clarification where
  line_id : Int
  code : String
  reasons : List String
deriving DecidableEq

structure DupGroup where
  group : Nat
  line_ids : List Int
  dos : String
  code : String
  units : Int
  charge : Rat
deriving DecidableEq

/-- The two clarification triggers evaluated on every item regardless of
the registry branch, in source order. -/
def triggers (item : LineItem) : List String :=
  (if item.units = 0 ∧ item.charge > 0 then [unitsReason] else []) ++
  (if item.code_type = "MOD" ∧ item.charge > 0 then [modReason] else [])

def mkEntry (item : LineItem) (od pe notes : String) : Entry :=
  ⟨item.line_id, dateToStr item.date_of_service, item.code, item.code_type,
   od, pe, item.units, item.charge, notes⟩

/-- The body of the per-item rule loop in evaluate_line_items: produces
the (pre-duplicate-note) entry and the clarification reasons, or the
uncaught exception from strptime on a malformed effective_date. -/
def evalItem (code_defs : Registry) (item : LineItem) :
    Except String (Entry × List String) :=
  match regFind code_defs item.code with
  | none =>
      .ok (mkEntry item PLACEHOLDER PLACEHOLDER (""), missingCodeReason :: triggers item)
  | some defn =>
      if item.code_type ≠ defn.code_type then
        .ok (mkEntry item PLACEHOLDER PLACEHOLDER (""),
             mismatchReason item.code_type defn.code_type :: triggers item)
      else
        match parseDate defn.effective_date.data with
        | none => .error (strptimeError defn.effective_date)
        | some eff =>
            if defn.status ≠ "Active" ∨ dateLt item.date_of_service eff then
              .ok (mkEntry item ("N/A") ("N/A") INACTIVE_NOTE, INACTIVE_NOTE :: triggers item)
            else
              .ok (mkEntry item defn.official_description defn.plain_english (""), triggers item)

/-- The item loop: entries in order; a Clarification is emitted exactly
when the reason list is non-empty (needs_clarification in the source is
set at every append site). -/
def evalLoop (code_defs : Registry) : List LineItem → Except String (List Entry × List Clarification)
  | [] => .ok ([], [])
  | it :: rest =>
      match evalItem code_defs it with
      | .error e => .error e
      | .ok (entry, reasons) =>
          match evalLoop code_defs rest with
          | .error e => .error e
          | .ok (es, cs) =>
              .ok (entry :: es,
                   (if reasons = [] then [] else [⟨it.line_id, it.code, reasons⟩]) ++ cs)

/-- sorted(rows, key=lambda x: x["line_id"]).  Python sorted is a stable
sort; insertionSort by ≤ is also stable (proved below as
sortItems_filter_stable), and a stable sort on the same key order is
unique, so this models sorted exactly. -/
def sortItems (rows : List LineItem) : List LineItem :=
  List.insertionSort (fun a b => a.line_id ≤ b.line_id) rows

/-- The composite duplicate key (dos.strftime, code, units, charge). -/
abbrev DupKey := String × String × Int × Rat

def keyOf (it : LineItem) : DupKey :=
  (dateToStr it.date_of_service, it.code, it.units, it.charge)

/-- defaultdict(list) append: keys keep insertion order, ids keep
encounter order. -/
def groupInsert (k : DupKey) (lid : Int) : List (DupKey × List Int) → List (DupKey × List Int)
  | [] => [(k, [lid])]
  | (k2, ids) :: rest =>
      if k2 = k then (k2, ids ++ [lid]) :: rest
      else (k2, ids) :: groupInsert k lid rest

def buildMap (items : List LineItem) : List (DupKey × List Int) :=
  items.foldl (fun m it => groupInsert (keyOf it) it.line_id m) []

/-- min() of a non-empty list (0 is never reached: map values are
non-empty). -/
def minList : List Int → Int
  | [] => 0
  | x :: xs => xs.foldl min x

/-- sorted(dup_groups_map.keys(), key=lambda k: min(dup_groups_map[k]));
the map's keys are unique, so sorting the (key, ids) pairs is the same as
sorting the keys and looking each one up.  Stable, like Python sorted. -/
def sortedGroups (items : List LineItem) : List (DupKey × List Int) :=
  List.insertionSort (fun a b => minList a.2 ≤ minList b.2) (buildMap (sortItems items))

/-- The numbering loop: group_num only advances on kept groups. -/
def assignGroups : Nat → List (DupKey × List Int) → List DupGroup
  | _, [] => []
  | n, (k, ids) :: rest =>
      if ids.length > 1 then
        ⟨n, ids, k.1, k.2.1, k.2.2.1, k.2.2.2⟩ :: assignGroups (n + 1) rest
      else assignGroups n rest

/-- Duplicate detection (the second half of evaluate_line_items). -/
def detect_duplicates (items : List LineItem) : List DupGroup :=
  assignGroups 1 (sortedGroups items)

/-- dup_line_ids as a list used only through membership. -/
def dupLineIds (groups : List DupGroup) : List Int :=
  groups.foldl (fun s g => s ++ g.line_ids) []

/-- The duplicate-note pass over section2. -/
def addDupNote (ids : List Int) (e : Entry) : Entry :=
  if e.line_id ∈ ids then
    ⟨e.line_id, e.dos, e.code, e.code_type, e.official_desc, e.plain_eng, e.units, e.charge,
     if e.notes = "" then DUP_NOTE else e.notes ++ ("; ") ++ DUP_NOTE⟩
  else e

/-- evaluate_line_items(rows, code_defs) -> (section2, dup_groups,
clarifications); .error models the uncaught strptime ValueError. -/
def evaluate_line_items (rows : List LineItem) (code_defs : Registry) :
    Except String (List Entry × List DupGroup × List Clarification) :=
  match evalLoop code_defs (sortItems rows) with
  | .error e => .error e
  | .ok (section2, clars) =>
      let dups := detect_duplicates rows
      .ok (section2.map (addDupNote (dupLineIds dups)), dups, clars)

/-! Concrete inputs used by the witnesses and counterexamples. -/

def c7Text : String := "line_id,code\n1,A"

def c4Text : String :=
  "line_id,date_of_service,code,code_type,units,charge\n1,2024-01-01,A,CPT,1,-5"

def c4Item : LineItem := ⟨1, ⟨2024, 1, 1⟩, "A", "CPT", 1, mkRat (-5) 1, ""⟩

def c3Row : RegRow :=
  ⟨some ("X1"), some ("CPT"), some ("desc"), some ("plain"), some ("Active"), some ("2024-99-99")⟩

def c3Def : CodeDef := ⟨"CPT", "desc", "plain", "Active", "2024-99-99"⟩

def c3Item : LineItem := ⟨1, ⟨2024, 1, 1⟩, "X1", "CPT", 1, mkRat 5 1, ""⟩

def c5Item : LineItem := ⟨7, ⟨2024, 1, 2⟩, "ZZZ9", "CPT", 3, mkRat 25 2, ""⟩

def c9Item : LineItem := ⟨4, ⟨2024, 3, 1⟩, "99213", "CPT", 0, mkRat 10 1, ""⟩

def c9Defs : Registry := [("99213", ⟨"CPT", "Office visit", "A visit", "Active", "2023-01-01"⟩)]

def c9Out : List Entry × List DupGroup × List Clarification :=
  match evaluate_line_items [c9Item] c9Defs with
  | .ok o => o
  | .error _ => ([], [], [])

/-- dict lookup in the duplicate-group map. -/
def lookupIds (m : List (DupKey × List Int)) (k : DupKey) : Option (List Int) :=
  match m.find? (fun p => decide (p.1 = k)) with
  | some p => some p.2
  | none => none

/-- Consecutive numbering of a list of key groups starting at n. -/
def zipNum : Nat → List (DupKey × List Int) → List DupGroup
  | _, [] => []
  | n, (k, ids) :: rest => ⟨n, ids, k.1, k.2.1, k.2.2.1, k.2.2.2⟩ :: zipNum (n + 1) rest

/-- The key groups that survive (more than one member). -/
def filterLong (l : List (DupKey × List Int)) : List (DupKey × List Int) :=
  l.filter (fun p => decide (1 < p.2.length))

/-- The composite key recorded in a duplicate group. -/
def keyOfGroup (g : DupGroup) : DupKey :=
  (g.dos, g.code, g.units, g.charge)

def c1Text : String :=
  "line_id,date_of_service,code,code_type,units,charge\n2,2024-01-02,B,CPT,1,7\n1,2024-01-01,A,CPT,1,5"

def c1Items : List LineItem := (parse_line_items c1Text).1

def c1Out : List Entry × List DupGroup × List Clarification :=
  match evaluate_line_items c1Items [] with
  | .ok o => o
  | .error _ => ([], [], [])

def c2Items : List LineItem :=
  [⟨1, ⟨2024, 1, 1⟩, "A", "CPT", 1, mkRat 5 1, ""⟩,
   ⟨2, ⟨2024, 1, 1⟩, "A", "CPT", 1, mkRat 5 1, ""⟩,
   ⟨3, ⟨2024, 1, 1⟩, "A", "CPT", 2, mkRat 5 1, ""⟩]

def c2Group : DupGroup := ⟨1, [1, 2], "2024-01-01", "A", 1, mkRat 5 1⟩

def c6Rows : List LineItem :=
  [⟨1, ⟨2024, 1, 1⟩, "X", "CPT", 1, mkRat 5 1, ""⟩,
   ⟨2, ⟨2024, 1, 1⟩, "X", "CPT", 1, mkRat 5 1, ""⟩]

def c6Defs : Registry := [("X", ⟨"CPT", "desc", "plain", "Inactive", "2023-01-01"⟩)]

def c6Out : List Entry × List DupGroup × List Clarification :=
  match evaluate_line_items c6Rows c6Defs with
  | .ok o => o
  | .error _ => ([], [], [])

def c6Group : DupGroup := ⟨1, [1, 2], "2024-01-01", "X", 1, mkRat 5 1⟩

def c8TextA : String :=
  "line_id,date_of_service,code,code_type,units,charge\n1,2024-01-01,A,CPT,1,5\n1,2024-01-01,B,CPT,1,5\n2,2024-01-01,A,CPT,1,5\n3,2024-01-01,B,CPT,1,5"

def c8TextB : String :=
  "line_id,date_of_service,code,code_type,units,charge\n1,2024-01-01,B,CPT,1,5\n1,2024-01-01,A,CPT,1,5\n2,2024-01-01,A,CPT,1,5\n3,2024-01-01,B,CPT,1,5"

def c8SmallA : List LineItem :=
  [⟨1, ⟨2024, 1, 1⟩, "A", "CPT", 1, mkRat 5 1, ""⟩,
   ⟨2, ⟨2024, 1, 1⟩, "A", "CPT", 1, mkRat 5 1, ""⟩]

def c8SmallB : List LineItem :=
  [⟨2, ⟨2024, 1, 1⟩, "A", "CPT", 1, mkRat 5 1, ""⟩,
   ⟨1, ⟨2024, 1, 1⟩, "A", "CPT", 1, mkRat 5 1, ""⟩]


/-! ### General lemmas about the parser -/

/-- Every data row yields exactly one item or exactly one row error. -/
theorem processRows_count (fns : List Chars) (delim : Char) :
    ∀ (i : Nat) (lines : List Chars),
      (processRows fns delim i lines).1.length + (processRows fns delim i lines).2.length
        = lines.length
  | _, [] => rfl
  | i, line :: rest => by
      have ih := processRows_count fns delim (i + 1) rest
      simp only [processRows]
      cases h : rowCheck fns delim line with
      | ok item => simp only [h, List.length_cons]; omega
      | error p => simp only [h, List.length_cons]; omega

/-- Every produced item is the successful validation of one data line. -/
theorem processRows_mem (fns : List Chars) (delim : Char) :
    ∀ (i : Nat) (lines : List Chars) (it : LineItem),
      it ∈ (processRows fns delim i lines).1 →
      ∃ line ∈ lines, rowCheck fns delim line = .ok it := by
  intro i lines
  induction lines generalizing i with
  | nil => intro it h; simp [processRows] at h
  | cons line rest ih =>
      intro it h
      simp only [processRows] at h
      cases hr : rowCheck fns delim line with
      | ok item =>
          rw [hr] at h
          rcases List.mem_cons.mp h with h1 | h2
          · exact ⟨line, List.mem_cons_self _ _, by rw [hr, h1]⟩
          · obtain ⟨l2, hl2, hok⟩ := ih (i + 1) it h2
            exact ⟨l2, List.mem_cons_of_mem _ hl2, hok⟩
      | error p =>
          rw [hr] at h
          obtain ⟨l2, hl2, hok⟩ := ih (i + 1) it h
          exact ⟨l2, List.mem_cons_of_mem _ hl2, hok⟩

/-- A successfully validated row carries exactly the parse_money value of
its raw charge field. -/
theorem rowCheck_ok_charge (fns : List Chars) (delim : Char) (line : Chars)
    (it : LineItem) (h : rowCheck fns delim line = .ok it) :
    parse_money (getStr (zipRestval fns (splitOnChar delim line)) (("charge").data))
      = some it.charge := by
  simp only [rowCheck] at h
  split at h
  · split at h
    · rename_i lid dos units charge hlid hdos hunits hcharge
      rw [hcharge]
      cases h
      rfl
    · exact absurd h (by simp)
  · exact absurd h (by simp)

/-- Every accepted item comes from a data line of the input text. -/
theorem parse_items_mem (text : String) (it : LineItem)
    (h : it ∈ (parse_line_items text).1) :
    ∃ line ∈ dataLinesOf text,
      rowCheck (fieldnamesOf text) (delimOf text) line = .ok it := by
  simp only [parse_line_items] at h
  split at h
  · simp at h
  · split at h
    · simp at h
    · split at h
      · simp at h
      · exact processRows_mem _ _ 2 _ it h

/-- When there is no row error, the item count equals the data-line
count: parsing yields exactly one item per well-formed input row. -/
theorem parse_length (text : String) (items : List LineItem) (errs : List String)
    (hp : parse_line_items text = (items, errs)) (he : errs = []) :
    items.length = (dataLinesOf text).length := by
  subst he
  simp only [parse_line_items] at hp
  split at hp
  · exact absurd (congrArg Prod.snd hp) (by simp)
  · rename_i hblank
    split at hp
    · rename_i hbody
      have hlines : linesOf text = [[]] := by
        simp only [linesOf, hbody]
        rfl
      have : dataLinesOf text = [] := by
        simp only [dataLinesOf, hlines]
        rfl
      rw [this]
      cases hp
      rfl
    · split at hp
      · exact absurd (congrArg Prod.snd hp) (by simp)
      · have hc := processRows_count (fieldnamesOf text) (delimOf text) 2 (dataLinesOf text)
        have h1 : items = (processRows (fieldnamesOf text) (delimOf text) 2 (dataLinesOf text)).1 := by
          rw [hp]
        have h2 : (processRows (fieldnamesOf text) (delimOf text) 2 (dataLinesOf text)).2 = [] := by
          rw [hp]
        rw [h1]
        rw [h2] at hc
        simpa using hc

/-! ### General lemmas about the evaluator -/

/-- The rule loop never changes an item's line_id. -/
theorem evalItem_line_id (defs : Registry) (it : LineItem) (p : Entry × List String)
    (h : evalItem defs it = .ok p) : p.1.line_id = it.line_id := by
  simp only [evalItem] at h
  split at h
  · rw [Except.ok.injEq] at h; subst h; rfl
  · split at h
    · rw [Except.ok.injEq] at h; subst h; rfl
    · split at h
      · simp at h
      · split at h
        · rw [Except.ok.injEq] at h; subst h; rfl
        · rw [Except.ok.injEq] at h; subst h; rfl

/-- Whatever branch the rule loop takes, the two independent triggers
are evaluated and their reasons close the reason list. -/
theorem evalItem_reasons (defs : Registry) (it : LineItem) (p : Entry × List String)
    (h : evalItem defs it = .ok p) : ∃ pre, p.2 = pre ++ triggers it := by
  simp only [evalItem] at h
  split at h
  · rw [Except.ok.injEq] at h; subst h; exact ⟨[missingCodeReason], rfl⟩
  · split at h
    · rw [Except.ok.injEq] at h; subst h
      exact ⟨[mismatchReason _ _], rfl⟩
    · split at h
      · simp at h
      · split at h
        · rw [Except.ok.injEq] at h; subst h; exact ⟨[INACTIVE_NOTE], rfl⟩
        · rw [Except.ok.injEq] at h; subst h; exact ⟨[], rfl⟩

/-- A successful loop keeps the items' line_ids in order. -/
theorem evalLoop_line_ids (defs : Registry) :
    ∀ (l : List LineItem) (p : List Entry × List Clarification),
      evalLoop defs l = .ok p → p.1.map (fun e => e.line_id) = l.map (fun it => it.line_id) := by
  intro l
  induction l with
  | nil =>
      intro p h
      simp only [evalLoop, Except.ok.injEq] at h
      subst h
      rfl
  | cons it rest ih =>
      intro p h
      simp only [evalLoop] at h
      cases h1 : evalItem defs it with
      | error e => rw [h1] at h; simp at h
      | ok q =>
          rw [h1] at h
          cases h2 : evalLoop defs rest with
          | error e => rw [h2] at h; simp at h
          | ok sc =>
              rw [h2] at h
              rw [Except.ok.injEq] at h
              subst h
              simp only [List.map_cons]
              rw [evalItem_line_id defs it q h1, ih sc h2]

/-- A successful loop evaluated every item; an item whose reason list is
non-empty has its Clarification in the output. -/
theorem evalLoop_mem (defs : Registry) :
    ∀ (l : List LineItem) (p : List Entry × List Clarification) (it : LineItem),
      evalLoop defs l = .ok p → it ∈ l →
      ∃ q, evalItem defs it = .ok q ∧
        (q.2 = [] ∨ (⟨it.line_id, it.code, q.2⟩ : Clarification) ∈ p.2) := by
  intro l
  induction l with
  | nil => intro p it _ hm; simp at hm
  | cons hd rest ih =>
      intro p it h hm
      simp only [evalLoop] at h
      cases h1 : evalItem defs hd with
      | error e => rw [h1] at h; simp at h
      | ok q =>
          rw [h1] at h
          cases h2 : evalLoop defs rest with
          | error e => rw [h2] at h; simp at h
          | ok sc =>
              rw [h2] at h
              rw [Except.ok.injEq] at h
              subst h
              rcases List.mem_cons.mp hm with rfl | hm2
              · refine ⟨q, h1, ?_⟩
                by_cases hq : q.2 = []
                · exact Or.inl hq
                · refine Or.inr ?_
                  simp only [if_neg hq]
                  exact List.mem_append_left _ (List.mem_singleton.mpr rfl)
              · obtain ⟨q2, hq2, hor⟩ := ih sc it h2 hm2
                refine ⟨q2, hq2, ?_⟩
                rcases hor with h3 | h3
                · exact Or.inl h3
                · exact Or.inr (List.mem_append_right _ h3)

/-- Every entry a successful loop produces is the rule-loop output of
one of the items: the pre-duplicate §4.3 notes of an entry are exactly
what evalItem computed for its item. -/
theorem evalLoop_entries_mem (defs : Registry) :
    ∀ (l : List LineItem) (p : List Entry × List Clarification) (e : Entry),
      evalLoop defs l = .ok p → e ∈ p.1 →
      ∃ it ∈ l, ∃ rs : List String, evalItem defs it = .ok (e, rs) := by
  intro l
  induction l with
  | nil =>
      intro p e h hm
      simp only [evalLoop, Except.ok.injEq] at h
      subst h
      simp at hm
  | cons hd rest ih =>
      intro p e h hm
      simp only [evalLoop] at h
      cases h1 : evalItem defs hd with
      | error er => rw [h1] at h; simp at h
      | ok q =>
          rw [h1] at h
          cases h2 : evalLoop defs rest with
          | error er => rw [h2] at h; simp at h
          | ok sc =>
              rw [h2] at h
              rw [Except.ok.injEq] at h
              subst h
              rcases List.mem_cons.mp hm with rfl | hm2
              · exact ⟨hd, List.mem_cons_self _ _, q.2, by rw [h1]⟩
              · obtain ⟨it, hit, rs, hq⟩ := ih sc e h2 hm2
                exact ⟨it, List.mem_cons_of_mem _ hit, rs, hq⟩

/-- Inversion for a successful evaluate_line_items run. -/
theorem evaluate_ok_inv (rows : List LineItem) (defs : Registry)
    (out : List Entry × List DupGroup × List Clarification)
    (h : evaluate_line_items rows defs = .ok out) :
    ∃ sc : List Entry × List Clarification,
      evalLoop defs (sortItems rows) = .ok sc ∧
      out = (sc.1.map (addDupNote (dupLineIds (detect_duplicates rows))),
             detect_duplicates rows, sc.2) := by
  simp only [evaluate_line_items] at h
  cases h1 : evalLoop defs (sortItems rows) with
  | error e => rw [h1] at h; simp at h
  | ok sc =>
      rw [h1] at h
      rw [Except.ok.injEq] at h
      exact ⟨sc, rfl, h.symm⟩

/-! ### General lemmas about the duplicate detector -/

theorem lookupIds_nil (k : DupKey) : lookupIds [] k = none := by
  simp [lookupIds, List.find?]

theorem lookupIds_cons (k2 : DupKey) (ids : List Int) (rest : List (DupKey × List Int))
    (k : DupKey) :
    lookupIds ((k2, ids) :: rest) k = if k2 = k then some ids else lookupIds rest k := by
  by_cases h : k2 = k
  · simp [lookupIds, List.find?, h]
  · simp [lookupIds, List.find?, h]

theorem lookupIds_groupInsert_self (k : DupKey) (lid : Int) :
    ∀ m, lookupIds (groupInsert k lid m) k = some ((lookupIds m k).getD [] ++ [lid])
  | [] => by simp [groupInsert, lookupIds_cons, lookupIds_nil]
  | (k2, ids) :: rest => by
      by_cases h : k2 = k
      · subst h
        simp [groupInsert, lookupIds_cons]
      · have ih := lookupIds_groupInsert_self k lid rest
        simp only [groupInsert, if_neg h, lookupIds_cons, if_neg h]
        exact ih

theorem lookupIds_groupInsert_ne (k k2 : DupKey) (lid : Int) (hne : k2 ≠ k) :
    ∀ m, lookupIds (groupInsert k lid m) k2 = lookupIds m k2
  | [] => by
      have h : k ≠ k2 := fun h => hne h.symm
      simp [groupInsert, lookupIds_cons, lookupIds_nil, h]
  | (k3, ids) :: rest => by
      by_cases h : k3 = k
      · subst h
        have h2 : k3 ≠ k2 := fun h2 => hne h2.symm
        simp [groupInsert, lookupIds_cons, h2]
      · have ih := lookupIds_groupInsert_ne k k2 lid hne rest
        simp [groupInsert, if_neg h, lookupIds_cons, ih]

/-- The accumulated duplicate-group map: each key's id list is the ids
already accumulated plus the line_ids of the matching items, in order. -/
theorem foldl_groupInsert_lookup :
    ∀ (l : List LineItem) (m : List (DupKey × List Int)) (k : DupKey),
      lookupIds (l.foldl (fun m2 it => groupInsert (keyOf it) it.line_id m2) m) k
        = if lookupIds m k = none ∧ l.filter (fun it => decide (keyOf it = k)) = []
          then none
          else some ((lookupIds m k).getD []
                 ++ (l.filter (fun it => decide (keyOf it = k))).map (fun it => it.line_id))
  | [], m, k => by
      cases h : lookupIds m k with
      | none => simp [h]
      | some ids => simp [h]
  | it :: l, m, k => by
      simp only [List.foldl_cons]
      rw [foldl_groupInsert_lookup l (groupInsert (keyOf it) it.line_id m) k]
      by_cases hk : keyOf it = k
      · subst hk
        rw [lookupIds_groupInsert_self (keyOf it) it.line_id m]
        rw [List.filter_cons_of_pos (by simp)]
        rw [if_neg (by intro hand; exact Option.noConfusion hand.1)]
        rw [if_neg (by intro hand; exact List.noConfusion hand.2)]
        simp
      · rw [lookupIds_groupInsert_ne (keyOf it) k it.line_id (fun h => hk h.symm) m]
        rw [List.filter_cons_of_neg (by simp [hk])]

theorem groupInsert_keys (k : DupKey) (lid : Int) :
    ∀ m, (groupInsert k lid m).map Prod.fst
      = if k ∈ m.map Prod.fst then m.map Prod.fst else m.map Prod.fst ++ [k]
  | [] => by simp [groupInsert]
  | (k2, ids) :: rest => by
      by_cases h : k2 = k
      · subst h
        simp [groupInsert]
      · have ih := groupInsert_keys k lid rest
        simp only [groupInsert, if_neg h, List.map_cons, ih]
        have hne : ¬ k = k2 := fun h2 => h h2.symm
        by_cases h2 : k ∈ rest.map Prod.fst
        · rw [if_pos h2, if_pos (by simp [h2])]
        · rw [if_neg h2, if_neg (by simp [hne, h2])]
          simp

theorem groupInsert_nodup (k : DupKey) (lid : Int) (m : List (DupKey × List Int))
    (h : (m.map Prod.fst).Nodup) : ((groupInsert k lid m).map Prod.fst).Nodup := by
  rw [groupInsert_keys]
  by_cases h2 : k ∈ m.map Prod.fst
  · rw [if_pos h2]; exact h
  · rw [if_neg h2]
    simp only [List.nodup_append, List.nodup_cons, List.nodup_nil]
    exact ⟨h, by simp, by simpa [List.disjoint_singleton] using h2⟩

theorem buildMap_nodup_aux :
    ∀ (l : List LineItem) (m : List (DupKey × List Int)),
      (m.map Prod.fst).Nodup →
      (((l.foldl (fun m2 it => groupInsert (keyOf it) it.line_id m2) m)).map Prod.fst).Nodup
  | [], m, h => h
  | it :: l, m, h => by
      simp only [List.foldl_cons]
      exact buildMap_nodup_aux l _ (groupInsert_nodup _ _ m h)

theorem buildMap_nodup (items : List LineItem) : ((buildMap items).map Prod.fst).Nodup :=
  buildMap_nodup_aux items [] (by simp)

theorem lookupIds_of_mem :
    ∀ (m : List (DupKey × List Int)) (k : DupKey) (ids : List Int),
      (m.map Prod.fst).Nodup → (k, ids) ∈ m → lookupIds m k = some ids
  | [], k, ids, _, hm => by simp at hm
  | (k2, ids2) :: rest, k, ids, hnd, hm => by
      rcases List.mem_cons.mp hm with h | h
      · rw [Prod.mk.injEq] at h
        obtain ⟨h1, h2⟩ := h
        subst h1; subst h2
        simp [lookupIds_cons]
      · have hne : k2 ≠ k := by
          intro he
          subst he
          have : k2 ∈ rest.map Prod.fst := by
            exact List.mem_map.mpr ⟨(k2, ids), h, rfl⟩
          simp only [List.map_cons, List.nodup_cons] at hnd
          exact hnd.1 this
        have ih := lookupIds_of_mem rest k ids (by
          simp only [List.map_cons, List.nodup_cons] at hnd
          exact hnd.2) h
        rw [lookupIds_cons, if_neg hne]
        exact ih

theorem mem_of_lookupIds (m : List (DupKey × List Int)) (k : DupKey) (ids : List Int)
    (h : lookupIds m k = some ids) : (k, ids) ∈ m := by
  simp only [lookupIds] at h
  cases hf : m.find? (fun p => decide (p.1 = k)) with
  | none => rw [hf] at h; simp at h
  | some p =>
      rw [hf] at h
      rw [Option.some.injEq] at h
      have hp := List.find?_some hf
      have hmem := List.mem_of_find?_eq_some hf
      rw [decide_eq_true_eq] at hp
      have : p = (k, ids) := by
        cases p with
        | mk a b => simp only at hp h; rw [hp, h]
      rw [this] at hmem
      exact hmem

/-- Full characterization of the duplicate-group map built from a list:
an entry for key k exists iff some item has that key, and then its ids
are exactly the line_ids of the matching items in list order. -/
theorem buildMap_mem_iff (items : List LineItem) (k : DupKey) (ids : List Int) :
    ((k, ids) ∈ buildMap items ↔
      items.filter (fun it => decide (keyOf it = k)) ≠ [] ∧
      ids = (items.filter (fun it => decide (keyOf it = k))).map (fun it => it.line_id)) := by
  have hkey := foldl_groupInsert_lookup items [] k
  have hempty : lookupIds [] k = none := by simp [lookupIds, List.find?]
  rw [hempty] at hkey
  constructor
  · intro hm
    have hl := lookupIds_of_mem (buildMap items) k ids (buildMap_nodup items) hm
    unfold buildMap at hl
    rw [hkey] at hl
    by_cases hfil : items.filter (fun it => decide (keyOf it = k)) = []
    · rw [if_pos ⟨rfl, hfil⟩] at hl
      exact absurd hl (by simp)
    · rw [if_neg (by intro hand; exact hfil hand.2)] at hl
      rw [Option.some.injEq] at hl
      exact ⟨hfil, by simpa using hl.symm⟩
  · intro ⟨hfil, hids⟩
    have : lookupIds (buildMap items) k = some ids := by
      unfold buildMap
      rw [hkey]
      rw [if_neg (by intro hand; exact hfil hand.2)]
      simp [hids]
    exact mem_of_lookupIds _ _ _ this

theorem sortedGroups_mem_iff (items : List LineItem) (p : DupKey × List Int) :
    p ∈ sortedGroups items ↔ p ∈ buildMap (sortItems items) := by
  unfold sortedGroups
  exact (List.perm_insertionSort _ _).mem_iff

theorem sortedGroups_nodup (items : List LineItem) :
    ((sortedGroups items).map Prod.fst).Nodup := by
  unfold sortedGroups
  exact (((List.perm_insertionSort _ _).map Prod.fst).nodup_iff).mpr (buildMap_nodup _)

theorem sortedGroups_sorted (items : List LineItem) :
    (sortedGroups items).Pairwise (fun a b => minList a.2 ≤ minList b.2) := by
  unfold sortedGroups
  haveI : IsTotal (DupKey × List Int) (fun a b => minList a.2 ≤ minList b.2) :=
    ⟨fun a b => Int.le_total _ _⟩
  haveI : IsTrans (DupKey × List Int) (fun a b => minList a.2 ≤ minList b.2) :=
    ⟨fun a b c h1 h2 => le_trans h1 h2⟩
  exact List.sorted_insertionSort _ _

theorem assignGroups_eq_zipNum :
    ∀ (n : Nat) (l : List (DupKey × List Int)), assignGroups n l = zipNum n (filterLong l)
  | _, [] => rfl
  | n, (k, ids) :: rest => by
      by_cases h : 1 < ids.length
      · have ih := assignGroups_eq_zipNum (n + 1) rest
        simp only [assignGroups, if_pos h, filterLong, List.filter_cons, decide_eq_true h]
        simp only [zipNum]
        rw [ih]
        rfl
      · have ih := assignGroups_eq_zipNum n rest
        simp only [assignGroups, if_neg h, filterLong, List.filter_cons]
        rw [decide_eq_false h]
        simpa [filterLong] using ih

theorem zipNum_map_group :
    ∀ (n : Nat) (l : List (DupKey × List Int)),
      (zipNum n l).map (fun g => g.group) = List.range' n l.length
  | _, [] => rfl
  | n, (k, ids) :: rest => by
      simp only [zipNum, List.map_cons, List.length_cons, List.range'_succ]
      rw [zipNum_map_group (n + 1) rest]

theorem zipNum_length (n : Nat) (l : List (DupKey × List Int)) :
    (zipNum n l).length = l.length := by
  have := congrArg List.length (zipNum_map_group n l)
  simpa using this

theorem zipNum_mem :
    ∀ (n : Nat) (l : List (DupKey × List Int)) (g : DupGroup),
      g ∈ zipNum n l → ∃ p ∈ l, g.line_ids = p.2 ∧ keyOfGroup g = p.1
  | _, [], g, h => by simp [zipNum] at h
  | n, (k, ids) :: rest, g, h => by
      simp only [zipNum, List.mem_cons] at h
      rcases h with h | h
      · subst h
        exact ⟨(k, ids), List.mem_cons_self _ _, rfl, rfl⟩
      · obtain ⟨p, hp, h1, h2⟩ := zipNum_mem (n + 1) rest g h
        exact ⟨p, List.mem_cons_of_mem _ hp, h1, h2⟩

theorem zipNum_mem_of :
    ∀ (n : Nat) (l : List (DupKey × List Int)) (p : DupKey × List Int),
      p ∈ l → ∃ g ∈ zipNum n l, g.line_ids = p.2 ∧ keyOfGroup g = p.1
  | n, [], p, h => by simp at h
  | n, (k, ids) :: rest, p, h => by
      rcases List.mem_cons.mp h with h | h
      · subst h
        exact ⟨⟨n, ids, k.1, k.2.1, k.2.2.1, k.2.2.2⟩, by simp [zipNum], rfl, rfl⟩
      · obtain ⟨g, hg, h1, h2⟩ := zipNum_mem_of (n + 1) rest p h
        exact ⟨g, by simp [zipNum, hg], h1, h2⟩

theorem zipNum_pairwise (R : List Int → List Int → Prop) :
    ∀ (n : Nat) (l : List (DupKey × List Int)),
      l.Pairwise (fun a b => R a.2 b.2) →
      (zipNum n l).Pairwise (fun g h => R g.line_ids h.line_ids)
  | _, [], _ => by simp [zipNum]
  | n, (k, ids) :: rest, h => by
      rw [List.pairwise_cons] at h
      simp only [zipNum, List.pairwise_cons]
      constructor
      · intro g hg
        obtain ⟨p, hp, h1, _⟩ := zipNum_mem (n + 1) rest g hg
        rw [h1]
        exact h.1 p hp
      · exact zipNum_pairwise R (n + 1) rest h.2

theorem mem_dupLineIds_aux (lid : Int) :
    ∀ (groups : List DupGroup) (acc : List Int),
      (lid ∈ acc ∨ ∃ g ∈ groups, lid ∈ g.line_ids) →
      lid ∈ groups.foldl (fun s g => s ++ g.line_ids) acc
  | [], acc, h => by
      rcases h with h | h
      · exact h
      · obtain ⟨g, hg, _⟩ := h
        simp at hg
  | g :: rest, acc, h => by
      simp only [List.foldl_cons]
      apply mem_dupLineIds_aux lid rest (acc ++ g.line_ids)
      rcases h with h | ⟨g2, hg2, hlid⟩
      · exact Or.inl (List.mem_append_left _ h)
      · rcases List.mem_cons.mp hg2 with h2 | h2
        · subst h2
          exact Or.inl (List.mem_append_right _ hlid)
        · exact Or.inr ⟨g2, h2, hlid⟩

theorem mem_dupLineIds (groups : List DupGroup) (g : DupGroup) (lid : Int)
    (hg : g ∈ groups) (hlid : lid ∈ g.line_ids) : lid ∈ dupLineIds groups :=
  mem_dupLineIds_aux lid groups [] (Or.inr ⟨g, hg, hlid⟩)

/-- The relation the item sort uses. -/
theorem sortItems_sorted (rows : List LineItem) :
    (sortItems rows).Pairwise (fun a b => a.line_id ≤ b.line_id) := by
  unfold sortItems
  haveI : IsTotal LineItem (fun a b => a.line_id ≤ b.line_id) :=
    ⟨fun a b => Int.le_total _ _⟩
  haveI : IsTrans LineItem (fun a b => a.line_id ≤ b.line_id) :=
    ⟨fun a b c h1 h2 => le_trans h1 h2⟩
  exact List.sorted_insertionSort _ _

theorem sortItems_perm (rows : List LineItem) : List.Perm (sortItems rows) rows :=
  List.perm_insertionSort _ _

/-- Stability of the item sort: the items sharing one line_id keep their
original relative order (Python sorted is stable). -/
theorem sortItems_filter_stable (rows : List LineItem) (v : Int) :
    (sortItems rows).filter (fun it => decide (it.line_id = v))
      = rows.filter (fun it => decide (it.line_id = v)) := by
  set p := fun it : LineItem => decide (it.line_id = v) with hp
  have hpw : (rows.filter p).Pairwise (fun a b => a.line_id ≤ b.line_id) := by
    apply List.pairwise_of_forall_mem_list
    intro a ha b hb
    have ha2 := (List.mem_filter.mp ha).2
    have hb2 := (List.mem_filter.mp hb).2
    rw [hp] at ha2 hb2
    simp only [decide_eq_true_eq] at ha2 hb2
    rw [ha2, hb2]
  have h1 : List.Sublist (rows.filter p) (sortItems rows) :=
    List.sublist_insertionSort hpw (List.filter_sublist rows)
  have h2 : (rows.filter p).filter p = rows.filter p :=
    List.filter_eq_self.mpr (fun a ha => (List.mem_filter.mp ha).2)
  have h3 : List.Sublist (rows.filter p) ((sortItems rows).filter p) := by
    have := h1.filter p
    rw [h2] at this
    exact this
  have h4 : ((sortItems rows).filter p).length = (rows.filter p).length :=
    ((sortItems_perm rows).filter p).length_eq
  exact (h3.eq_of_length h4.symm).symm

theorem addDupNote_line_id (ids : List Int) (e : Entry) :
    (addDupNote ids e).line_id = e.line_id := by
  unfold addDupNote
  split
  · rfl
  · rfl

theorem addDupNote_notes_of_mem (ids : List Int) (e : Entry) (h : e.line_id ∈ ids) :
    (addDupNote ids e).notes
      = if e.notes = "" then DUP_NOTE else e.notes ++ ("; ") ++ DUP_NOTE := by
  unfold addDupNote
  rw [if_pos h]

/-- Every line_id listed in a detected duplicate group is the line_id of
some (sorted) item. -/
theorem detect_mem_line_ids (items : List LineItem) (g : DupGroup) (lid : Int)
    (hg : g ∈ detect_duplicates items) (hlid : lid ∈ g.line_ids) :
    lid ∈ (sortItems items).map (fun it => it.line_id) := by
  unfold detect_duplicates at hg
  rw [assignGroups_eq_zipNum] at hg
  obtain ⟨p, hp, hids, _⟩ := zipNum_mem 1 _ g hg
  have hp2 := List.mem_filter.mp hp
  have hmem : (p.1, p.2) ∈ buildMap (sortItems items) := by
    rw [← sortedGroups_mem_iff]
    exact hp2.1
  have hchar := (buildMap_mem_iff (sortItems items) p.1 p.2).mp hmem
  rw [hids, hchar.2] at hlid
  obtain ⟨it, hit, hlid2⟩ := List.mem_map.mp hlid
  exact List.mem_map.mpr ⟨it, (List.mem_filter.mp hit).1, hlid2⟩

/-! ### Claims -/

/-- C3 (counterexample): loading the registry does NOT fail on a
malformed effective_date.  load_code_definitions accepts a row whose
effective_date "2024-99-99" is not a well-formed ISO date and stores the
string verbatim, so the registry load succeeds — nothing is rejected at
load time. -/
theorem load_accepts_malformed_effective_date :
    load_code_definitions [c3Row] = .ok [("X1", c3Def)] ∧
    parseDate ("2024-99-99").data = none := by
  constructor
  · rfl
  · decide

/-- C3 (amended): a malformed effective_date in the registry is accepted
at load time and becomes fatal only during evaluation, when an item whose
code resolves to that definition with a matching code_type reaches the
effective-date parse: the per-item rule loop raises (returns the strptime
error) and the whole evaluation aborts with no output. -/
theorem malformed_effective_date_fatal_at_evaluation
    (rows : List LineItem) (defs : Registry) (it : LineItem) (d : CodeDef)
    (hmem : it ∈ rows)
    (hfind : regFind defs it.code = some d)
    (hct : it.code_type = d.code_type)
    (hbad : parseDate d.effective_date.data = none) :
    evalItem defs it = .error (strptimeError d.effective_date) ∧
    ∀ out, evaluate_line_items rows defs ≠ .ok out := by
  have hitem : evalItem defs it = .error (strptimeError d.effective_date) := by
    simp only [evalItem, hfind, hct, hbad]
    simp
  refine ⟨hitem, ?_⟩
  intro out hok
  obtain ⟨sc, hloop, _⟩ := evaluate_ok_inv rows defs out hok
  have hmem2 : it ∈ sortItems rows := by
    simpa [sortItems, List.mem_insertionSort] using hmem
  obtain ⟨q, hq, _⟩ := evalLoop_mem defs (sortItems rows) sc it hloop hmem2
  rw [hitem] at hq
  simp at hq

/-- C3 (witness). -/
theorem malformed_effective_date_fatal_at_evaluation_witness :
    c3Item ∈ [c3Item] ∧
    regFind [("X1", c3Def)] c3Item.code = some c3Def ∧
    c3Item.code_type = c3Def.code_type ∧
    parseDate c3Def.effective_date.data = none ∧
    evalItem [("X1", c3Def)] c3Item = .error (strptimeError c3Def.effective_date) :=
  ⟨by decide, by decide, by decide, by decide,
   (malformed_effective_date_fatal_at_evaluation [c3Item] [("X1", c3Def)] c3Item c3Def
      (by decide) (by decide) (by decide) (by decide)).1⟩

/-- C5: an item whose code is absent from the registry gets the fixed
placeholder for both description fields, no note (rules 2–3 are skipped),
and its reason list is exactly "Missing code definition" followed by the
two independent triggers — whatever the item's other fields are. -/
theorem unknown_code_placeholder_and_reason (defs : Registry) (it : LineItem)
    (h : regFind defs it.code = none) :
    evalItem defs it =
      .ok (mkEntry it PLACEHOLDER PLACEHOLDER (""), missingCodeReason :: triggers it) := by
  simp [evalItem, h]

/-- C5 (witness). -/
theorem unknown_code_placeholder_and_reason_witness :
    regFind [] c5Item.code = none ∧
    evalItem [] c5Item =
      .ok (mkEntry c5Item PLACEHOLDER PLACEHOLDER (""), missingCodeReason :: triggers c5Item) :=
  ⟨by decide, unknown_code_placeholder_and_reason [] c5Item (by decide)⟩

/-- C9: a validated item with units = 0 and charge > 0 always yields a
ClarificationRecord containing the reason "units = 0 AND charge > 0",
whatever the registry-lookup branch did. -/
theorem units_zero_charge_pos_reason
    (rows : List LineItem) (defs : Registry)
    (out : List Entry × List DupGroup × List Clarification) (it : LineItem)
    (hev : evaluate_line_items rows defs = .ok out)
    (hmem : it ∈ rows) (hu : it.units = 0) (hc : 0 < it.charge) :
    ∃ c ∈ out.2.2, c.line_id = it.line_id ∧ c.code = it.code ∧ unitsReason ∈ c.reasons := by
  obtain ⟨sc, hloop, hout⟩ := evaluate_ok_inv rows defs out hev
  have hmem2 : it ∈ sortItems rows := by
    simpa [sortItems, List.mem_insertionSort] using hmem
  obtain ⟨q, hq, hor⟩ := evalLoop_mem defs (sortItems rows) sc it hloop hmem2
  obtain ⟨pre, hpre⟩ := evalItem_reasons defs it q hq
  have htrig : unitsReason ∈ triggers it := by
    simp [triggers, hu, hc]
  have hin : unitsReason ∈ q.2 := by
    rw [hpre]
    exact List.mem_append_right _ htrig
  have hne : q.2 ≠ [] := by
    intro hnil
    rw [hnil] at hin
    simp at hin
  rcases hor with h0 | h0
  · exact absurd h0 hne
  · refine ⟨⟨it.line_id, it.code, q.2⟩, ?_, rfl, rfl, hin⟩
    rw [hout]
    exact h0

/-- C9 (witness). -/
theorem units_zero_charge_pos_reason_witness :
    evaluate_line_items [c9Item] c9Defs = .ok c9Out ∧
    c9Item ∈ [c9Item] ∧ c9Item.units = 0 ∧ 0 < c9Item.charge ∧
    ∃ c ∈ c9Out.2.2, c.line_id = c9Item.line_id ∧ c.code = c9Item.code ∧
      unitsReason ∈ c.reasons :=
  ⟨by rfl, by decide, by decide, by decide,
   units_zero_charge_pos_reason [c9Item] c9Defs c9Out c9Item
     (by rfl) (by decide) (by decide) (by decide)⟩

/-- C1: for well-formed input (no row errors, evaluation succeeds),
parsing then evaluating produces exactly one EvaluationEntry per input
row, and the entries are in ascending line_id order — regardless of the
order of the rows in the input text.  The last conjunct is the stability
guarantee: rows sharing a line_id keep their original relative order. -/
theorem parse_evaluate_one_entry_per_row_sorted
    (text : String) (defs : Registry)
    (items : List LineItem) (errs : List String)
    (out : List Entry × List DupGroup × List Clarification)
    (hp : parse_line_items text = (items, errs)) (he : errs = [])
    (hev : evaluate_line_items items defs = .ok out) :
    items.length = (dataLinesOf text).length ∧
    out.1.length = items.length ∧
    (out.1.map (fun e => e.line_id)).Pairwise (fun a b => a ≤ b) ∧
    List.Perm (out.1.map (fun e => e.line_id)) (items.map (fun it => it.line_id)) ∧
    (∀ v : Int, (sortItems items).filter (fun it => decide (it.line_id = v))
        = items.filter (fun it => decide (it.line_id = v))) := by
  obtain ⟨sc, hloop, hout⟩ := evaluate_ok_inv items defs out hev
  have hmap0 : sc.1.map (fun e => e.line_id)
      = (sortItems items).map (fun it => it.line_id) :=
    evalLoop_line_ids defs (sortItems items) sc hloop
  have hmap : out.1.map (fun e => e.line_id)
      = (sortItems items).map (fun it => it.line_id) := by
    rw [hout]
    simp only [List.map_map]
    rw [← hmap0]
    apply List.map_congr_left
    intro e _
    exact addDupNote_line_id _ e
  refine ⟨parse_length text items errs hp he, ?_, ?_, ?_, ?_⟩
  · have h1 : out.1.length = sc.1.length := by
      rw [hout]
      simp
    have h2 : sc.1.length = (sortItems items).length := by
      have := congrArg List.length hmap0
      simpa using this
    rw [h1, h2]
    unfold sortItems
    exact List.length_insertionSort _ _
  · rw [hmap, List.pairwise_map]
    exact sortItems_sorted items
  · rw [hmap]
    exact (sortItems_perm items).map _
  · exact fun v => sortItems_filter_stable items v

/-- C1 (witness): two rows given in descending line_id order come back
as two entries in ascending order. -/
theorem parse_evaluate_one_entry_per_row_sorted_witness :
    parse_line_items c1Text = (c1Items, []) ∧
    evaluate_line_items c1Items [] = .ok c1Out ∧
    c1Items.length = (dataLinesOf c1Text).length ∧
    c1Out.1.length = c1Items.length ∧
    (c1Out.1.map (fun e => e.line_id)).Pairwise (fun a b => a ≤ b) :=
  ⟨by rfl, by rfl,
   (parse_evaluate_one_entry_per_row_sorted c1Text [] c1Items [] c1Out
      (by rfl) rfl (by rfl)).1,
   (parse_evaluate_one_entry_per_row_sorted c1Text [] c1Items [] c1Out
      (by rfl) rfl (by rfl)).2.1,
   (parse_evaluate_one_entry_per_row_sorted c1Text [] c1Items [] c1Out
      (by rfl) rfl (by rfl)).2.2.1⟩

/-- C2: the duplicate detector groups the validated items by the exact
composite key (date_of_service, code, units, charge): each reported
group's line_ids are exactly the line_ids of the items with that key, in
ascending order; groups of size 1 are discarded; the surviving groups are
ordered by ascending minimum line_id and numbered 1..N in that order; and
every key shared by more than one item yields a group. -/
theorem detect_duplicates_spec (items : List LineItem) :
    (∀ g, g ∈ detect_duplicates items →
        g.line_ids = ((sortItems items).filter
            (fun it => decide (keyOf it = keyOfGroup g))).map (fun it => it.line_id) ∧
        1 < g.line_ids.length ∧
        g.line_ids.Pairwise (fun a b => a ≤ b)) ∧
    (detect_duplicates items).map (fun g => g.group)
        = List.range' 1 (detect_duplicates items).length ∧
    (detect_duplicates items).Pairwise
        (fun g1 g2 => minList g1.line_ids ≤ minList g2.line_ids) ∧
    (∀ k : DupKey,
        1 < ((sortItems items).filter (fun it => decide (keyOf it = k))).length →
        ∃ g ∈ detect_duplicates items, keyOfGroup g = k) := by
  have hdet : detect_duplicates items = zipNum 1 (filterLong (sortedGroups items)) := by
    unfold detect_duplicates
    exact assignGroups_eq_zipNum 1 _
  refine ⟨?_, ?_, ?_, ?_⟩
  · intro g hg
    rw [hdet] at hg
    obtain ⟨p, hp, hids, hkey⟩ := zipNum_mem 1 _ g hg
    have hp2 := List.mem_filter.mp hp
    have hlong : 1 < p.2.length := by
      have := hp2.2
      simpa using this
    have hmem : (p.1, p.2) ∈ buildMap (sortItems items) := by
      rw [← sortedGroups_mem_iff]
      exact hp2.1
    have hchar := (buildMap_mem_iff (sortItems items) p.1 p.2).mp hmem
    refine ⟨?_, ?_, ?_⟩
    · rw [hids, hkey]
      exact hchar.2
    · rw [hids]; exact hlong
    · rw [hids, hchar.2]
      rw [List.pairwise_map]
      have hsorted := sortItems_sorted items
      exact hsorted.filter _
  · rw [hdet, zipNum_map_group, zipNum_length]
  · rw [hdet]
    apply zipNum_pairwise (fun a b => minList a ≤ minList b)
    apply List.Pairwise.filter
    exact sortedGroups_sorted items
  · intro k hk
    set F := (sortItems items).filter (fun it => decide (keyOf it = k)) with hF
    have hne : F ≠ [] := by
      intro h0
      rw [h0] at hk
      simp at hk
    have hmem : (k, F.map (fun it => it.line_id)) ∈ buildMap (sortItems items) :=
      (buildMap_mem_iff (sortItems items) k _).mpr ⟨hne, rfl⟩
    have hmem2 : (k, F.map (fun it => it.line_id)) ∈ sortedGroups items := by
      rw [sortedGroups_mem_iff]
      exact hmem
    have hlong : (k, F.map (fun it => it.line_id)) ∈ filterLong (sortedGroups items) := by
      apply List.mem_filter.mpr
      refine ⟨hmem2, ?_⟩
      simpa using hk
    obtain ⟨g, hg, _, hkey⟩ := zipNum_mem_of 1 _ _ hlong
    rw [← hdet] at hg
    exact ⟨g, hg, hkey⟩

/-- C2 (witness). -/
theorem detect_duplicates_spec_witness :
    c2Group ∈ detect_duplicates c2Items ∧
    c2Group.line_ids = ((sortItems c2Items).filter
        (fun it => decide (keyOf it = keyOfGroup c2Group))).map (fun it => it.line_id) ∧
    1 < c2Group.line_ids.length ∧
    c2Group.line_ids.Pairwise (fun a b => a ≤ b) :=
  ⟨by decide, (detect_duplicates_spec c2Items).1 c2Group (by decide)⟩

/-- C6: after duplicate detection, every line_id that belongs to some
DuplicateGroup also appears as an EvaluationEntry whose notes carry the
duplicate note, appended after (not instead of) the pre-duplicate note of
that entry: the base of the concatenation is exactly the notes field the
per-item rule loop (evalItem, §4.3 inactive/not-effective rule) produced
for one of the evaluated items with this line_id. -/
theorem duplicate_ids_have_entry_with_appended_note
    (rows : List LineItem) (defs : Registry)
    (out : List Entry × List DupGroup × List Clarification)
    (hev : evaluate_line_items rows defs = .ok out)
    (g : DupGroup) (hg : g ∈ out.2.1) (lid : Int) (hlid : lid ∈ g.line_ids) :
    ∃ e ∈ out.1, e.line_id = lid ∧
      ∃ it ∈ rows, ∃ q : Entry × List String,
        evalItem defs it = .ok q ∧ q.1.line_id = lid ∧
        e.notes = (if q.1.notes = "" then DUP_NOTE
                   else q.1.notes ++ ("; ") ++ DUP_NOTE) := by
  obtain ⟨sc, hloop, hout⟩ := evaluate_ok_inv rows defs out hev
  have hg2 : g ∈ detect_duplicates rows := by
    rw [hout] at hg
    exact hg
  have hdup : lid ∈ dupLineIds (detect_duplicates rows) :=
    mem_dupLineIds _ g lid hg2 hlid
  have hlid2 : lid ∈ (sortItems rows).map (fun it => it.line_id) :=
    detect_mem_line_ids rows g lid hg2 hlid
  rw [← evalLoop_line_ids defs (sortItems rows) sc hloop] at hlid2
  obtain ⟨e0, he0, hlid3⟩ := List.mem_map.mp hlid2
  obtain ⟨it, hit, rs, hq⟩ := evalLoop_entries_mem defs (sortItems rows) sc e0 hloop he0
  refine ⟨addDupNote (dupLineIds (detect_duplicates rows)) e0, ?_, ?_,
          it, (sortItems_perm rows).mem_iff.mp hit, (e0, rs), hq, hlid3, ?_⟩
  · rw [hout]
    exact List.mem_map.mpr ⟨e0, he0, rfl⟩
  · rw [addDupNote_line_id]
    exact hlid3
  · apply addDupNote_notes_of_mem
    rw [hlid3]
    exact hdup

/-- C6 (witness): the duplicated code "X" is Inactive, so both entries
already carry the §4.3 note; the final notes are that note with the
duplicate note appended after it, not in its place. -/
theorem duplicate_ids_have_entry_with_appended_note_witness :
    evaluate_line_items c6Rows c6Defs = .ok c6Out ∧
    c6Group ∈ c6Out.2.1 ∧ (1 : Int) ∈ c6Group.line_ids ∧
    (∃ e ∈ c6Out.1, e.line_id = 1 ∧
      ∃ it ∈ c6Rows, ∃ q : Entry × List String,
        evalItem c6Defs it = .ok q ∧ q.1.line_id = 1 ∧
        e.notes = (if q.1.notes = "" then DUP_NOTE
                   else q.1.notes ++ ("; ") ++ DUP_NOTE)) ∧
    (∀ e ∈ c6Out.1, e.notes = INACTIVE_NOTE ++ ("; ") ++ DUP_NOTE) :=
  ⟨by rfl, by decide, by decide,
   duplicate_ids_have_entry_with_appended_note c6Rows c6Defs c6Out (by rfl) c6Group
     (by decide) 1 (by decide),
   by decide⟩

set_option maxHeartbeats 4000000 in
/-- C8 (counterexample): group numbering is NOT invariant under every
permutation of valid input rows.  Duplicate line_ids are never rejected,
and when two surviving groups share the same minimum line_id (here both
have min 1, via two valid rows with line_id 1 and different codes), the
tie is broken by dict-insertion order, which follows input order: the
same input rows in a different order assign group 1 to code "A" in one
run and to code "B" in the other. -/
theorem group_numbering_not_permutation_invariant :
    List.Perm (parse_line_items c8TextB).1 (parse_line_items c8TextA).1 ∧
    (parse_line_items c8TextA).2 = [] ∧ (parse_line_items c8TextB).2 = [] ∧
    (detect_duplicates (parse_line_items c8TextA).1).map (fun g => (g.group, g.code))
      = [(1, "A"), (2, "B")] ∧
    (detect_duplicates (parse_line_items c8TextB).1).map (fun g => (g.group, g.code))
      = [(1, "B"), (2, "A")] := by
  refine ⟨?_, ?_, ?_, ?_, ?_⟩
  · decide
  · decide
  · decide
  · decide
  · decide

/-- C8 (amended): group numbering is invariant under permutation of the
input rows provided no two rows share a line_id (the uniqueness the data
model expects of the well-formed subset).  Then the stable sort is fully
determined and permuting the items leaves the entire duplicate-group
output, numbering included, unchanged. -/
theorem detect_duplicates_perm_invariant
    (items1 items2 : List LineItem)
    (hperm : List.Perm items2 items1)
    (hnd : (items1.map (fun it => it.line_id)).Nodup) :
    detect_duplicates items2 = detect_duplicates items1 := by
  suffices h : sortItems items2 = sortItems items1 by
    unfold detect_duplicates sortedGroups
    rw [h]
  have hp : List.Perm (sortItems items2) (sortItems items1) :=
    (sortItems_perm items2).trans (hperm.trans (sortItems_perm items1).symm)
  have hnd1 : ((sortItems items1).map (fun it => it.line_id)).Nodup :=
    (((sortItems_perm items1).map (fun it => it.line_id)).nodup_iff).mpr hnd
  have hnd2 : ((sortItems items2).map (fun it => it.line_id)).Nodup :=
    ((hp.map (fun it => it.line_id)).nodup_iff).mpr hnd1
  have hlt : ∀ (l : List LineItem),
      l.Pairwise (fun a b => a.line_id ≤ b.line_id) →
      (l.map (fun it => it.line_id)).Nodup →
      l.Pairwise (fun a b => a.line_id < b.line_id) := by
    intro l hle hndl
    rw [List.Nodup, List.pairwise_map] at hndl
    exact (hle.and hndl).imp (fun h => lt_of_le_of_ne h.1 h.2)
  have hs1 : (sortItems items1).Pairwise (fun a b => a.line_id < b.line_id) :=
    hlt _ (sortItems_sorted items1) hnd1
  have hs2 : (sortItems items2).Pairwise (fun a b => a.line_id < b.line_id) :=
    hlt _ (sortItems_sorted items2) hnd2
  haveI : IsAntisymm LineItem (fun a b => a.line_id < b.line_id) :=
    ⟨fun a b h1 h2 => absurd (lt_trans h1 h2) (lt_irrefl _)⟩
  exact List.eq_of_perm_of_sorted hp hs2 hs1

/-- C8 (amended, witness). -/
theorem detect_duplicates_perm_invariant_witness :
    List.Perm c8SmallB c8SmallA ∧
    ((c8SmallA.map (fun it => it.line_id)).Nodup) ∧
    detect_duplicates c8SmallB = detect_duplicates c8SmallA :=
  ⟨by decide, by decide,
   detect_duplicates_perm_invariant c8SmallA c8SmallB (by decide) (by decide)⟩

/-- C10: an input consisting of just an opening code-fence line and a
closing code-fence line is not blank, survives the sentinel check, strips
to an empty table body, and parse_line_items returns no items and no
errors at all — neither the "No line-item data provided." error nor a
structural one. -/
theorem fence_only_input_yields_empty :
    parse_line_items ("```" ++ "\n" ++ "```") = ([], []) ∧
    blank ("```" ++ "\n" ++ "```") = false := by
  constructor
  · decide
  · decide

/-- C7: when the normalized header is missing required columns, parsing
aborts with zero items and exactly one structural error naming the
missing columns (alphabetically), and no per-row error is produced. -/
theorem missing_columns_single_structural_error (text : String)
    (hb : blank text = false) (hbody : bodyOf text ≠ "")
    (hm : missingColsOf text ≠ []) :
    parse_line_items text =
      ([], ["Missing required columns: " ++ joinSep (", ") ((missingColsOf text).map ofChars)]) := by
  simp [parse_line_items, hb, hbody, hm]

/-- C7 (witness): the header "line_id,code" lacks four required columns. -/
theorem missing_columns_single_structural_error_witness :
    blank c7Text = false ∧ bodyOf c7Text ≠ "" ∧ missingColsOf c7Text ≠ [] ∧
    parse_line_items c7Text =
      ([], ["Missing required columns: charge, code_type, date_of_service, units"]) :=
  ⟨by decide, by decide, by decide, by
    have h := missing_columns_single_structural_error c7Text (by decide) (by decide) (by decide)
    rw [h]
    decide⟩

/-- C4 (counterexample): the claim that every accepted item has a
non-negative charge is false: a row whose charge field is "-5" parses as
a monetary amount, is accepted with no error, and yields an item whose
charge is -5 < 0. -/
theorem negative_charge_accepted :
    (parse_line_items c4Text).1.map (fun it => it.charge) = [mkRat (-5) 1] ∧
    (parse_line_items c4Text).2 = [] ∧
    ¬ (∀ it ∈ (parse_line_items c4Text).1, 0 ≤ it.charge) := by
  refine ⟨by decide, by decide, ?_⟩
  intro h
  have := h c4Item (by decide)
  revert this
  decide

/-- C4 (amended): every accepted item's charge equals exactly the value
parse_money returns for its row's raw charge field — the sign is not
checked, so the charge is non-negative only when that parsed value is. -/
theorem charge_equals_parsed_money (text : String) (it : LineItem)
    (hmem : it ∈ (parse_line_items text).1) :
    ∃ line ∈ dataLinesOf text,
      rowCheck (fieldnamesOf text) (delimOf text) line = .ok it ∧
      parse_money (getStr (zipRestval (fieldnamesOf text)
          (splitOnChar (delimOf text) line)) (("charge").data)) = some it.charge := by
  obtain ⟨line, hline, hok⟩ := parse_items_mem text it hmem
  exact ⟨line, hline, hok, rowCheck_ok_charge _ _ _ _ hok⟩

/-- C4 (amended, witness). -/
theorem charge_equals_parsed_money_witness :
    c4Item ∈ (parse_line_items c4Text).1 ∧
    ∃ line ∈ dataLinesOf c4Text,
      rowCheck (fieldnamesOf c4Text) (delimOf c4Text) line = .ok c4Item ∧
      parse_money (getStr (zipRestval (fieldnamesOf c4Text)
          (splitOnChar (delimOf c4Text) line)) (("charge").data)) = some c4Item.charge :=
  ⟨by decide, charge_equals_parsed_money c4Text c4Item (by decide)⟩

end Bill
